import Mathlib

/-
  Verification of the handlejson repository (chintanshah35/handlejson).

  Shallow embedding of:
  - src/src/validate.ts   (schema validator: getType, validate)
  - src/src/parse.ts      (security-gated parse pipeline: validateInputSize,
                           checkDepth, sanitizeKeys, parse, parseWithDetails)
  - src/src/index.ts      (safe serialization: transformDatesForTimestamp,
                           createCircularReplacer, createDateReviver,
                           stringify, tryStringify, parse)
  together with the detailed validator (tryValidate with path-qualified
  ValidationError) that the repository exports, documents in its README and
  exercises in its tests, but whose source file is not part of the snapshot;
  that validator is modelled from the spec (definitions marked
  "Modelled from the spec:").

  JavaScript values are modelled by the inductive JsVal below. Object
  property access is association-list lookup (first match), and object key
  iteration order is list order, mirroring JS insertion order.
-/

/-- A JavaScript runtime value, as relevant to this library: the JSON value
universe plus `undefined`, `Date` objects (carrying their epoch-millisecond
value) and `BigInt`. Numbers are modelled as integers, which covers every
value the claims are about. -/
inductive JsVal where
  | undefined : JsVal
  | null : JsVal
  | bool : Bool → JsVal
  | num : Int → JsVal
  | str : String → JsVal
  | arr : List JsVal → JsVal
  | obj : List (String × JsVal) → JsVal
  | date : Int → JsVal
  | bigint : Int → JsVal

/-- Property access `value[key]`: first binding wins; a missing property
reads as `undefined`, as in JavaScript. -/
def fieldOf (v : JsVal) (key : String) : JsVal :=
  match v with
  | .obj fields =>
    match fields.find? (fun p => p.1 == key) with
    | some p => p.2
    | none => .undefined
  | _ => .undefined

/-- The test `typeof value === "object" && value !== null && !Array.isArray(value)`
from validate.ts, returning the own enumerable properties when it holds.
`Date` instances satisfy the test and have no own enumerable properties. -/
def getFields : JsVal → Option (List (String × JsVal))
  | .obj fields => some fields
  | .date _ => some []
  | _ => none

/-- getType from src/src/validate.ts: `null` maps to "object" (JavaScript
typeof semantics), arrays to "array", everything else to its typeof tag. -/
def getType (v : JsVal) : String :=
  match v with
  | .null => "object"
  | .arr _ => "array"
  | .undefined => "undefined"
  | .bool _ => "boolean"
  | .num _ => "number"
  | .str _ => "string"
  | .obj _ => "object"
  | .date _ => "object"
  | .bigint _ => "bigint"

/-- A schema value of src/src/validate.ts: either a primitive type tag
(a string) or a nested schema (checked by `typeof schemaValue === "string"`). -/
inductive SchemaValue where
  | tag : String → SchemaValue
  | nested : List (String × SchemaValue) → SchemaValue

/-- A schema: field names mapped to schema values, in declaration order. -/
abbrev Schema := List (String × SchemaValue)

mutual

/-- validate from src/src/validate.ts: root must be a non-null, non-array
object; fields are then checked in the schema's own key order. Returns the
`[valid, error]` pair, the error being the Error message. -/
def validate (value : JsVal) (schema : Schema) : Bool × Option String :=
  match getFields value with
  | none => (false, some ("Expected object, got " ++ getType value))
  | some _ => validateKeys value schema
termination_by (sizeOf schema, 1)
decreasing_by all_goals simp_wf <;> omega

/-- The `for (const key of keys)` loop of validate: short-circuits on the
first failing field. -/
def validateKeys (value : JsVal) (schema : Schema) : Bool × Option String :=
  match schema with
  | [] => (true, none)
  | (key, sv) :: rest =>
    let objValue := fieldOf value key
    match sv with
    | .tag t =>
      if getType objValue == t then validateKeys value rest
      else (false, some ("Field \"" ++ key ++ "\": expected " ++ t ++ ", got " ++ getType objValue))
    | .nested s =>
      match getFields objValue with
      | none => (false, some ("Field \"" ++ key ++ "\": expected object, got " ++ getType objValue))
      | some _ =>
        match validate objValue s with
        | (true, _) => validateKeys value rest
        | (false, err) => (false, some ("Field \"" ++ key ++ "\": " ++ err.getD ""))
termination_by (sizeOf schema, 0)
decreasing_by all_goals simp_wf <;> omega

end

/-- Whether the check of one schema field succeeds on `value`, exactly as the
loop body of validate decides it. -/
def fieldOk (value : JsVal) (key : String) (sv : SchemaValue) : Bool :=
  match sv with
  | .tag t => getType (fieldOf value key) == t
  | .nested s => (getFields (fieldOf value key)).isSome && (validate (fieldOf value key) s).1

/-- The error message the validate loop reports for a failing field. -/
def fieldErr (value : JsVal) (key : String) (sv : SchemaValue) : Option String :=
  match sv with
  | .tag t =>
    some ("Field \"" ++ key ++ "\": expected " ++ t ++ ", got " ++ getType (fieldOf value key))
  | .nested s =>
    match getFields (fieldOf value key) with
    | none => some ("Field \"" ++ key ++ "\": expected object, got " ++ getType (fieldOf value key))
    | some _ => some ("Field \"" ++ key ++ "\": " ++ (validate (fieldOf value key) s).2.getD "")

theorem validateKeys_cons_ok (v : JsVal) (k : String) (sv : SchemaValue) (rest : Schema)
    (h : fieldOk v k sv = true) :
    validateKeys v ((k, sv) :: rest) = validateKeys v rest := by
  cases sv with
  | tag t =>
    simp only [fieldOk] at h
    simp [validateKeys, h]
  | nested s =>
    simp only [fieldOk, Bool.and_eq_true, Option.isSome_iff_exists] at h
    obtain ⟨⟨fs, hfs⟩, hv⟩ := h
    rw [validateKeys]
    simp only [hfs]
    rcases hval : validate (fieldOf v k) s with ⟨b, e⟩
    rw [hval] at hv
    simp at hv
    subst hv
    rfl

theorem validateKeys_cons_fail (v : JsVal) (k : String) (sv : SchemaValue) (rest : Schema)
    (h : fieldOk v k sv = false) :
    validateKeys v ((k, sv) :: rest) = (false, fieldErr v k sv) := by
  cases sv with
  | tag t =>
    simp only [fieldOk] at h
    simp [validateKeys, fieldErr, h]
  | nested s =>
    simp only [fieldOk, Bool.and_eq_false_iff] at h
    rw [validateKeys, fieldErr]
    rcases h with h | h
    · rcases hfs : getFields (fieldOf v k) with _ | fs
      · rfl
      · rw [hfs] at h
        simp at h
    · rcases hfs : getFields (fieldOf v k) with _ | fs
      · rfl
      · rcases hval : validate (fieldOf v k) s with ⟨b, e⟩
        rw [hval] at h
        simp at h
        subst h
        simp [hval]

theorem validateKeys_firstFail (value : JsVal) (pre post : Schema) (key : String)
    (sv : SchemaValue)
    (hpre : ∀ p ∈ pre, fieldOk value p.1 p.2 = true)
    (hfail : fieldOk value key sv = false) :
    validateKeys value (pre ++ (key, sv) :: post) = (false, fieldErr value key sv) := by
  induction pre with
  | nil => simpa using validateKeys_cons_fail value key sv post hfail
  | cons p rest ih =>
    have hp : fieldOk value p.1 p.2 = true := hpre p (by simp)
    have step : validateKeys value ((p :: rest) ++ (key, sv) :: post)
        = validateKeys value (rest ++ (key, sv) :: post) := by
      rcases p with ⟨k', sv'⟩
      exact validateKeys_cons_ok value k' sv' (rest ++ (key, sv) :: post) hp
    rw [step]
    exact ih (fun q hq => hpre q (by simp [hq]))

/-- C2: with the schema's keys iterated in their own (insertion) order, when
the fields preceding `key` all pass and `key` fails, validate reports exactly
the error of `key` — the earliest failing field — and the result does not
depend on anything after `key` in the schema (later fields are never
evaluated). -/
theorem validate_first_failure_wins (value : JsVal) (pre post : Schema) (key : String)
    (sv : SchemaValue)
    (hobj : (getFields value).isSome = true)
    (hpre : ∀ p ∈ pre, fieldOk value p.1 p.2 = true)
    (hfail : fieldOk value key sv = false) :
    validate value (pre ++ (key, sv) :: post) = (false, fieldErr value key sv) ∧
    ∀ post' : Schema,
      validate value (pre ++ (key, sv) :: post') = validate value (pre ++ (key, sv) :: post) := by
  rcases hfs : getFields value with _ | fs
  · rw [hfs] at hobj
    simp at hobj
  · constructor
    · rw [validate, hfs]
      exact validateKeys_firstFail value pre post key sv hpre hfail
    · intro post'
      rw [validate, hfs, validate, hfs,
        validateKeys_firstFail value pre post key sv hpre hfail,
        validateKeys_firstFail value pre post' key sv hpre hfail]

/-- Witness for C2 at the spec's own scenario: schema
`(name: string, age: number, active: boolean)` against
`(name: "John", age: "30", active: 5)` — both `age` and `active` fail, and the
reported error is the one for `age`, the earlier key. -/
theorem validate_first_failure_wins_witness :
    validate (JsVal.obj [("name", JsVal.str "John"), ("age", JsVal.str "30"), ("active", JsVal.num 5)])
      [("name", SchemaValue.tag "string"), ("age", SchemaValue.tag "number"),
        ("active", SchemaValue.tag "boolean")]
      = (false, some "Field \"age\": expected number, got string") := by
  have h := validate_first_failure_wins
    (JsVal.obj [("name", JsVal.str "John"), ("age", JsVal.str "30"), ("active", JsVal.num 5)])
    [("name", SchemaValue.tag "string")] [("active", SchemaValue.tag "boolean")]
    "age" (SchemaValue.tag "number") (by decide)
    (by
      intro p hp
      simp only [List.mem_singleton] at hp
      subst hp
      decide)
    (by decide)
  exact h.1.trans (by decide)

/-- Modelled from the spec: the repository exports a detailed validator
(`tryValidate`, documented in the README and exercised by the test suite)
whose source file is missing from the snapshot. Its schema values form a
closed tagged union: a primitive type tag, an optional primitive tag (the
tag prefixed with the `?` marker), a single-element sequence holding one
nested schema value (array-of-T), or a nested schema (mapping). -/
inductive SchemaValueV where
  | prim : String → SchemaValueV
  | optMark : String → SchemaValueV
  | arrayOf : SchemaValueV → SchemaValueV
  | nestedObj : List (String × SchemaValueV) → SchemaValueV

/-- A detailed-validator schema: field names to schema values, in order. -/
abbrev SchemaV := List (String × SchemaValueV)

/-- Modelled from the spec: the canonical runtime type name funnel, mapping
any representable value to one of string, number, boolean, object, array,
null, undefined — with null and undefined distinguished from each other and
from object. Structured non-JSON values (Date, BigInt) fall into the
structured "object" bucket. -/
def runtimeTypeName : JsVal → String
  | .null => "null"
  | .undefined => "undefined"
  | .arr _ => "array"
  | .obj _ => "object"
  | .str _ => "string"
  | .num _ => "number"
  | .bool _ => "boolean"
  | .date _ => "object"
  | .bigint _ => "object"

/-- Modelled from the spec: a ValidationError carries the path locator, the
expected type tag, the actual runtime type name and a human message. -/
structure ValidationError where
  path : String
  expected : String
  actual : String
  message : String
deriving DecidableEq

/-- Builds a ValidationError; the message format follows the README example
`Expected number at (path), got string`. -/
def mkVErr (path expected actual : String) : ValidationError :=
  ⟨path, expected, actual,
    "Expected " ++ expected ++ " at \x27" ++ path ++ "\x27, got " ++ actual⟩

/-- The strict-equality test `value === undefined`. -/
def isUndefined : JsVal → Bool
  | .undefined => true
  | _ => false

/-- Modelled from the spec: the root precondition test — a genuine non-null,
non-sequence structured value. -/
def isStructured : JsVal → Bool
  | .obj _ => true
  | .date _ => true
  | _ => false

mutual

/-- Modelled from the spec: per-field resolution of the detailed validator.
`path` is the locator of the value being checked. Optionality is satisfied
only by `undefined`; array-of-T checks elements in index order with `[index]`
appended to the path; a nested schema prefixes the failing field's key onto
the nested error path with `.` at the recursive return. -/
def checkValue (path : String) (v : JsVal) (sv : SchemaValueV) : Option ValidationError :=
  match sv with
  | .prim t =>
    if runtimeTypeName v == t then none else some (mkVErr path t (runtimeTypeName v))
  | .optMark t =>
    if isUndefined v then none
    else if runtimeTypeName v == t then none else some (mkVErr path t (runtimeTypeName v))
  | .arrayOf inner =>
    match v with
    | .arr elems => checkElems path 0 elems inner
    | _ => some (mkVErr path "array" (runtimeTypeName v))
  | .nestedObj s =>
    if isStructured v then
      match validateFields v s with
      | none => none
      | some e => some (mkVErr (path ++ "." ++ e.path) e.expected e.actual)
    else some (mkVErr path "object" (runtimeTypeName v))
termination_by (sizeOf sv, 0, 0)

/-- Modelled from the spec: element loop of array-of-T validation,
short-circuiting on the first failing index; an empty sequence is valid. -/
def checkElems (path : String) (i : Nat) (elems : List JsVal) (inner : SchemaValueV) :
    Option ValidationError :=
  match elems with
  | [] => none
  | e :: rest =>
    match checkValue (path ++ "[" ++ toString i ++ "]") e inner with
    | some err => some err
    | none => checkElems path (i + 1) rest inner
termination_by (sizeOf inner, 1, sizeOf elems)

/-- Modelled from the spec: field loop of the detailed validator, in the
schema's own key order, short-circuiting on the first failure. -/
def validateFields (v : JsVal) (schema : SchemaV) : Option ValidationError :=
  match schema with
  | [] => none
  | (key, sv) :: rest =>
    match checkValue key (fieldOf v key) sv with
    | some err => some err
    | none => validateFields v rest
termination_by (sizeOf schema, 0, 0)

end

/-- Modelled from the spec: tryValidate — root must be a non-null,
non-sequence structured value (else path `root`), then fields are checked in
schema order. -/
def tryValidate (value : JsVal) (schema : SchemaV) : Bool × Option ValidationError :=
  if isStructured value then
    match validateFields value schema with
    | none => (true, none)
    | some e => (false, some e)
  else (false, some (mkVErr "root" "object" (runtimeTypeName value)))

/-- C1: error paths are built by prefixing the failing field's key at each
recursive return — a nested-schema failure at relative path `p` under field
locator `k` surfaces as `k.p`; an array element at index `i` is checked at
locator `base[i]` and its error surfaces unchanged; and the spec's round-trip
example, schema `(users: [(name: string)])` against
`(users: [(name: "ok"), (name: 5)])`, reports path exactly `users[1].name`. -/
theorem error_path_composition :
    (∀ (path : String) (v : JsVal) (s : SchemaV) (e : ValidationError),
      isStructured v = true → validateFields v s = some e →
      checkValue path v (SchemaValueV.nestedObj s)
        = some (mkVErr (path ++ "." ++ e.path) e.expected e.actual)) ∧
    (∀ (path : String) (i : Nat) (e : JsVal) (rest : List JsVal) (inner : SchemaValueV)
      (err : ValidationError),
      checkValue (path ++ "[" ++ toString i ++ "]") e inner = some err →
      checkElems path i (e :: rest) inner = some err) ∧
    (∀ (path : String) (i : Nat) (e : JsVal) (rest : List JsVal) (inner : SchemaValueV),
      checkValue (path ++ "[" ++ toString i ++ "]") e inner = none →
      checkElems path i (e :: rest) inner = checkElems path (i + 1) rest inner) ∧
    tryValidate
      (JsVal.obj [("users", JsVal.arr
        [JsVal.obj [("name", JsVal.str "ok")], JsVal.obj [("name", JsVal.num 5)]])])
      [("users", SchemaValueV.arrayOf (SchemaValueV.nestedObj [("name", SchemaValueV.prim "string")]))]
      = (false, some (mkVErr "users[1].name" "string" "number")) := by
  refine ⟨?_, ?_, ?_, ?_⟩
  · intro path v s e hv he
    rw [checkValue, hv]
    simp [he]
  · intro path i e rest inner err h
    rw [checkElems, h]
  · intro path i e rest inner h
    rw [checkElems, h]
  · have h0 : checkValue "users[0]" (JsVal.obj [("name", JsVal.str "ok")])
        (SchemaValueV.nestedObj [("name", SchemaValueV.prim "string")]) = none := by
      rw [checkValue,
        if_pos (show isStructured (JsVal.obj [("name", JsVal.str "ok")]) = true from rfl)]
      have h2 : validateFields (JsVal.obj [("name", JsVal.str "ok")])
          [("name", SchemaValueV.prim "string")] = none := by
        rw [validateFields,
          show fieldOf (JsVal.obj [("name", JsVal.str "ok")]) "name" = JsVal.str "ok" from rfl,
          show checkValue "name" (JsVal.str "ok") (SchemaValueV.prim "string") = none from by
            rw [checkValue]; rfl]
        show validateFields (JsVal.obj [("name", JsVal.str "ok")]) [] = none
        rw [validateFields]
      rw [h2]
    have h1 : checkValue "users[1]" (JsVal.obj [("name", JsVal.num 5)])
        (SchemaValueV.nestedObj [("name", SchemaValueV.prim "string")])
        = some (mkVErr "users[1].name" "string" "number") := by
      rw [checkValue,
        if_pos (show isStructured (JsVal.obj [("name", JsVal.num 5)]) = true from rfl)]
      have h3 : validateFields (JsVal.obj [("name", JsVal.num 5)])
          [("name", SchemaValueV.prim "string")] = some (mkVErr "name" "string" "number") := by
        rw [validateFields,
          show fieldOf (JsVal.obj [("name", JsVal.num 5)]) "name" = JsVal.num 5 from rfl,
          show checkValue "name" (JsVal.num 5) (SchemaValueV.prim "string")
            = some (mkVErr "name" "string" "number") from by rw [checkValue]; rfl]
      rw [h3]
      rfl
    have h6 : checkElems "users" 0
        [JsVal.obj [("name", JsVal.str "ok")], JsVal.obj [("name", JsVal.num 5)]]
        (SchemaValueV.nestedObj [("name", SchemaValueV.prim "string")])
        = some (mkVErr "users[1].name" "string" "number") := by
      rw [checkElems,
        show ("users" ++ "[" ++ toString 0 ++ "]") = "users[0]" from rfl, h0]
      show checkElems "users" 1 [JsVal.obj [("name", JsVal.num 5)]]
        (SchemaValueV.nestedObj [("name", SchemaValueV.prim "string")])
        = some (mkVErr "users[1].name" "string" "number")
      rw [checkElems,
        show ("users" ++ "[" ++ toString 1 ++ "]") = "users[1]" from rfl, h1]
    have h8 : validateFields
        (JsVal.obj [("users", JsVal.arr
          [JsVal.obj [("name", JsVal.str "ok")], JsVal.obj [("name", JsVal.num 5)]])])
        [("users", SchemaValueV.arrayOf (SchemaValueV.nestedObj
          [("name", SchemaValueV.prim "string")]))]
        = some (mkVErr "users[1].name" "string" "number") := by
      rw [validateFields,
        show fieldOf (JsVal.obj [("users", JsVal.arr
          [JsVal.obj [("name", JsVal.str "ok")], JsVal.obj [("name", JsVal.num 5)]])]) "users"
          = JsVal.arr [JsVal.obj [("name", JsVal.str "ok")], JsVal.obj [("name", JsVal.num 5)]]
          from rfl]
      rw [checkValue]
      show (match checkElems "users" 0
          [JsVal.obj [("name", JsVal.str "ok")], JsVal.obj [("name", JsVal.num 5)]]
          (SchemaValueV.nestedObj [("name", SchemaValueV.prim "string")]) with
        | some err => some err
        | none => validateFields
            (JsVal.obj [("users", JsVal.arr
              [JsVal.obj [("name", JsVal.str "ok")], JsVal.obj [("name", JsVal.num 5)]])]) [])
        = some (mkVErr "users[1].name" "string" "number")
      rw [h6]
    rw [tryValidate,
      if_pos (show isStructured (JsVal.obj [("users", JsVal.arr
        [JsVal.obj [("name", JsVal.str "ok")], JsVal.obj [("name", JsVal.num 5)]])]) = true
        from rfl), h8]

/-- Witness for C1: the nested-prefix law applied at the failing element of
the spec's round-trip example — checking `(name: 5)` at locator `users[1]`
yields path `users[1].name`. -/
theorem error_path_composition_witness :
    checkValue "users[1]" (JsVal.obj [("name", JsVal.num 5)])
      (SchemaValueV.nestedObj [("name", SchemaValueV.prim "string")])
      = some (mkVErr "users[1].name" "string" "number") := by
  have hinner : validateFields (JsVal.obj [("name", JsVal.num 5)])
      [("name", SchemaValueV.prim "string")] = some (mkVErr "name" "string" "number") := by
    rw [validateFields,
      show fieldOf (JsVal.obj [("name", JsVal.num 5)]) "name" = JsVal.num 5 from rfl,
      show checkValue "name" (JsVal.num 5) (SchemaValueV.prim "string")
        = some (mkVErr "name" "string" "number") from by rw [checkValue]; rfl]
  have h := error_path_composition.1 "users[1]" (JsVal.obj [("name", JsVal.num 5)])
    [("name", SchemaValueV.prim "string")] (mkVErr "name" "string" "number") rfl hinner
  rw [h]
  rfl

/-- C3: a field value of null never satisfies any declared primitive tag —
the tag `object` included — and the reported actual runtime type name for
null is the distinct name `null`, never `object`. -/
theorem null_never_matches_primitive_tag (path t : String)
    (h : t ∈ ["string", "number", "boolean", "object", "array"]) :
    checkValue path JsVal.null (SchemaValueV.prim t) = some (mkVErr path t "null") ∧
    runtimeTypeName JsVal.null = "null" := by
  refine ⟨?_, rfl⟩
  have hne : ("null" == t) = false := by
    fin_cases h <;> decide
  rw [checkValue]
  simp [runtimeTypeName, hne]

/-- Witness for C3 at the tag `object`: null does not satisfy it, and the
error reports actual `null`. -/
theorem null_never_matches_primitive_tag_witness :
    checkValue "x" JsVal.null (SchemaValueV.prim "object") = some (mkVErr "x" "object" "null") ∧
    (mkVErr "x" "object" "null").actual = "null" := by
  have h := null_never_matches_primitive_tag "x" "object" (by decide)
  exact ⟨h.1, rfl⟩

/-- C4: for the schema `(x: ?string)`, a value with `x` undefined validates,
a value missing `x` validates, and a value with `x` null is rejected with
actual reported as `null`. -/
theorem optional_field_null_distinction :
    tryValidate (JsVal.obj [("x", JsVal.undefined)]) [("x", SchemaValueV.optMark "string")]
      = (true, none) ∧
    tryValidate (JsVal.obj []) [("x", SchemaValueV.optMark "string")] = (true, none) ∧
    tryValidate (JsVal.obj [("x", JsVal.null)]) [("x", SchemaValueV.optMark "string")]
      = (false, some (mkVErr "x" "string" "null")) ∧
    (mkVErr "x" "string" "null").actual = "null" := by
  refine ⟨?_, ?_, ?_, rfl⟩ <;>
    simp [tryValidate, validateFields, checkValue, isStructured, fieldOf,
      runtimeTypeName, isUndefined]

/-- validateInputSize from src/src/parse.ts: fail when a maximum size is
configured and the input length exceeds it. -/
def validateInputSize (json : String) (maxSize : Option Nat) : Except String Unit :=
  match maxSize with
  | some n =>
    if json.length > n then
      .error ("Input size " ++ toString json.length ++ " exceeds maximum " ++ toString n
        ++ " bytes")
    else .ok ()
  | none => .ok ()

mutual

/-- checkDepth from src/src/parse.ts: fail as soon as the current nesting
depth exceeds the maximum; descend into arrays and object values with the
depth incremented. -/
def checkDepth (v : JsVal) (currentDepth maxDepth : Nat) : Except String Unit :=
  if currentDepth > maxDepth then
    .error ("Maximum depth " ++ toString maxDepth ++ " exceeded")
  else
    match v with
    | .arr items => checkDepthItems items (currentDepth + 1) maxDepth
    | .obj fields => checkDepthValues fields (currentDepth + 1) maxDepth
    | _ => .ok ()
termination_by (sizeOf v, 0)

/-- The `for (const item of obj)` walk of checkDepth. -/
def checkDepthItems (items : List JsVal) (d maxDepth : Nat) : Except String Unit :=
  match items with
  | [] => .ok ()
  | x :: xs =>
    match checkDepth x d maxDepth with
    | .error e => .error e
    | .ok _ => checkDepthItems xs d maxDepth
termination_by (sizeOf items, 1)

/-- The `for (const value of Object.values(obj))` walk of checkDepth. -/
def checkDepthValues (fields : List (String × JsVal)) (d maxDepth : Nat) : Except String Unit :=
  match fields with
  | [] => .ok ()
  | (_, x) :: xs =>
    match checkDepth x d maxDepth with
    | .error e => .error e
    | .ok _ => checkDepthValues xs d maxDepth
termination_by (sizeOf fields, 1)

end

/-- The dangerous-key test of sanitizeKeys in src/src/parse.ts: the three
prototype-pollution-sensitive names, matched exactly and case-sensitively. -/
def isDangerousKey (key : String) : Bool :=
  key == "__proto__" || key == "constructor" || key == "prototype"

mutual

/-- sanitizeKeys from src/src/parse.ts, with the changed-subtree flag made
explicit: the source detects a changed child by reference inequality
(`sanitizedValue !== objRecord[key]`), and the recursion returns a fresh
object precisely when it removed a key somewhere (otherwise it returns the
original reference), so reference inequality coincides with the `changed`
flag tracked here. The pair is (result, changed); when `changed` is false
the original value itself is returned, as in the source. -/
def sanitizeKeysC (v : JsVal) (safeKeys : Bool) : JsVal × Bool :=
  if !safeKeys then (v, false)
  else
    match v with
    | .arr items =>
      let s := sanitizeItemsC items safeKeys
      if s.2 then (.arr s.1, true) else (.arr items, false)
    | .obj fields =>
      let s := sanitizeFieldsC fields safeKeys
      if s.2 then (.obj s.1, true) else (.obj fields, false)
    | _ => (v, false)
termination_by (sizeOf v, 0)

/-- The `obj.map(item => sanitizeKeys(item, safeKeys))` walk, with the
`sanitized.some((item, i) => item !== obj[i])` change detection. -/
def sanitizeItemsC (items : List JsVal) (safeKeys : Bool) : List JsVal × Bool :=
  match items with
  | [] => ([], false)
  | x :: xs =>
    let hd := sanitizeKeysC x safeKeys
    let tl := sanitizeItemsC xs safeKeys
    (hd.1 :: tl.1, hd.2 || tl.2)
termination_by (sizeOf items, 1)

/-- The `for (const key in objRecord)` loop of sanitizeKeys: dangerous keys
are dropped (setting hasDangerousKeys), other keys keep their order with
recursively sanitized values. -/
def sanitizeFieldsC (fields : List (String × JsVal)) (safeKeys : Bool) :
    List (String × JsVal) × Bool :=
  match fields with
  | [] => ([], false)
  | (k, x) :: xs =>
    if isDangerousKey k then
      let tl := sanitizeFieldsC xs safeKeys
      (tl.1, true)
    else
      let hd := sanitizeKeysC x safeKeys
      let tl := sanitizeFieldsC xs safeKeys
      ((k, hd.1) :: tl.1, hd.2 || tl.2)
termination_by (sizeOf fields, 1)

end

/-- sanitizeKeys as the source exposes it: just the resulting value. -/
def sanitizeKeys (v : JsVal) (safeKeys : Bool) : JsVal :=
  (sanitizeKeysC v safeKeys).1

mutual

/-- A value is danger-free when no structured value anywhere in it owns a key
named __proto__, constructor or prototype. -/
def dangerFree : JsVal → Bool
  | .obj fields => dangerFreeFields fields
  | .arr items => dangerFreeItems items
  | _ => true
termination_by v => (sizeOf v, 0)

/-- dangerFree over array elements. -/
def dangerFreeItems : List JsVal → Bool
  | [] => true
  | x :: xs => dangerFree x && dangerFreeItems xs
termination_by items => (sizeOf items, 1)

/-- dangerFree over object fields. -/
def dangerFreeFields : List (String × JsVal) → Bool
  | [] => true
  | (k, x) :: xs => !isDangerousKey k && dangerFree x && dangerFreeFields xs
termination_by fields => (sizeOf fields, 1)

end

theorem sanitizeKeysC_unchanged (v : JsVal) (sk : Bool)
    (h : (sanitizeKeysC v sk).2 = false) : (sanitizeKeysC v sk).1 = v := by
  cases v with
  | arr items =>
    cases hsk : sk with
    | true =>
      rcases hs : (sanitizeItemsC items sk).2 with _ | _ <;> simp_all [sanitizeKeysC]
    | false => simp [sanitizeKeysC, hsk]
  | obj fields =>
    cases hsk : sk with
    | true =>
      rcases hs : (sanitizeFieldsC fields sk).2 with _ | _ <;> simp_all [sanitizeKeysC]
    | false => simp [sanitizeKeysC, hsk]
  | undefined => simp [sanitizeKeysC]
  | null => simp [sanitizeKeysC]
  | bool b => simp [sanitizeKeysC]
  | num n => simp [sanitizeKeysC]
  | str s => simp [sanitizeKeysC]
  | date m => simp [sanitizeKeysC]
  | bigint n => simp [sanitizeKeysC]

theorem sanitizeItemsC_unchanged (items : List JsVal) (sk : Bool)
    (h : (sanitizeItemsC items sk).2 = false) : (sanitizeItemsC items sk).1 = items := by
  induction items with
  | nil => simp [sanitizeItemsC]
  | cons x xs ih =>
    rw [sanitizeItemsC] at h ⊢
    simp only [Bool.or_eq_false_iff] at h
    simp [sanitizeKeysC_unchanged x sk h.1, ih h.2]

theorem sanitizeFieldsC_unchanged (fields : List (String × JsVal)) (sk : Bool)
    (h : (sanitizeFieldsC fields sk).2 = false) : (sanitizeFieldsC fields sk).1 = fields := by
  induction fields with
  | nil => simp [sanitizeFieldsC]
  | cons p xs ih =>
    rcases p with ⟨k, x⟩
    rw [sanitizeFieldsC] at h ⊢
    rcases hk : isDangerousKey k with _ | _
    · simp only [hk, Bool.false_eq_true, if_false, Bool.or_eq_false_iff] at h ⊢
      simp [sanitizeKeysC_unchanged x sk h.1, ih h.2]
    · simp only [hk] at h
      simp at h

mutual

theorem sanitizeKeysC_dangerFree (v : JsVal) :
    dangerFree (sanitizeKeysC v true).1 = true := by
  cases v with
  | arr items =>
    rcases hs : (sanitizeItemsC items true).2 with _ | _
    · have hu := sanitizeItemsC_unchanged items true hs
      have hd := sanitizeItemsC_dangerFree items
      rw [hu] at hd
      simp [sanitizeKeysC, hs, dangerFree, hd]
    · have hd := sanitizeItemsC_dangerFree items
      simp [sanitizeKeysC, hs, dangerFree, hd]
  | obj fields =>
    rcases hs : (sanitizeFieldsC fields true).2 with _ | _
    · have hu := sanitizeFieldsC_unchanged fields true hs
      have hd := sanitizeFieldsC_dangerFree fields
      rw [hu] at hd
      simp [sanitizeKeysC, hs, dangerFree, hd]
    · have hd := sanitizeFieldsC_dangerFree fields
      simp [sanitizeKeysC, hs, dangerFree, hd]
  | undefined => simp [sanitizeKeysC, dangerFree]
  | null => simp [sanitizeKeysC, dangerFree]
  | bool b => simp [sanitizeKeysC, dangerFree]
  | num n => simp [sanitizeKeysC, dangerFree]
  | str s => simp [sanitizeKeysC, dangerFree]
  | date m => simp [sanitizeKeysC, dangerFree]
  | bigint n => simp [sanitizeKeysC, dangerFree]
termination_by (sizeOf v, 0)

theorem sanitizeItemsC_dangerFree (items : List JsVal) :
    dangerFreeItems (sanitizeItemsC items true).1 = true := by
  match items with
  | [] => simp [sanitizeItemsC, dangerFreeItems]
  | x :: xs =>
    have h1 := sanitizeKeysC_dangerFree x
    have h2 := sanitizeItemsC_dangerFree xs
    simp [sanitizeItemsC, dangerFreeItems, h1, h2]
termination_by (sizeOf items, 1)

theorem sanitizeFieldsC_dangerFree (fields : List (String × JsVal)) :
    dangerFreeFields (sanitizeFieldsC fields true).1 = true := by
  match fields with
  | [] => simp [sanitizeFieldsC, dangerFreeFields]
  | (k, x) :: xs =>
    have h1 := sanitizeKeysC_dangerFree x
    have h2 := sanitizeFieldsC_dangerFree xs
    rcases hk : isDangerousKey k with _ | _
    · simp [sanitizeFieldsC, dangerFreeFields, hk, h1, h2]
    · simp [sanitizeFieldsC, hk, h2]
termination_by (sizeOf fields, 1)

end

mutual

theorem dangerFree_sanitize_id (v : JsVal) (h : dangerFree v = true) :
    sanitizeKeysC v true = (v, false) := by
  cases v with
  | arr items =>
    rw [dangerFree] at h
    have hi := dangerFreeItems_sanitize_id items h
    simp [sanitizeKeysC, hi]
  | obj fields =>
    rw [dangerFree] at h
    have hf := dangerFreeFields_sanitize_id fields h
    simp [sanitizeKeysC, hf]
  | undefined => simp [sanitizeKeysC]
  | null => simp [sanitizeKeysC]
  | bool b => simp [sanitizeKeysC]
  | num n => simp [sanitizeKeysC]
  | str s => simp [sanitizeKeysC]
  | date m => simp [sanitizeKeysC]
  | bigint n => simp [sanitizeKeysC]
termination_by (sizeOf v, 0)

theorem dangerFreeItems_sanitize_id (items : List JsVal)
    (h : dangerFreeItems items = true) : sanitizeItemsC items true = (items, false) := by
  match items with
  | [] => simp [sanitizeItemsC]
  | x :: xs =>
    rw [dangerFreeItems, Bool.and_eq_true] at h
    have h1 := dangerFree_sanitize_id x h.1
    have h2 := dangerFreeItems_sanitize_id xs h.2
    simp [sanitizeItemsC, h1, h2]
termination_by (sizeOf items, 1)

theorem dangerFreeFields_sanitize_id (fields : List (String × JsVal))
    (h : dangerFreeFields fields = true) : sanitizeFieldsC fields true = (fields, false) := by
  match fields with
  | [] => simp [sanitizeFieldsC]
  | (k, x) :: xs =>
    rw [dangerFreeFields] at h
    simp only [Bool.and_eq_true] at h
    have h1 := dangerFree_sanitize_id x h.1.2
    have h2 := dangerFreeFields_sanitize_id xs h.2
    have hk : isDangerousKey k = false := by
      rcases hk : isDangerousKey k with _ | _
      · rfl
      · rw [hk] at h
        simp at h
    simp [sanitizeFieldsC, hk, h1, h2]
termination_by (sizeOf fields, 1)

end

theorem sanitizeFieldsC_keys (fields : List (String × JsVal)) :
    ((sanitizeFieldsC fields true).1.map Prod.fst)
      = ((fields.filter (fun p => !isDangerousKey p.1)).map Prod.fst) := by
  induction fields with
  | nil => simp [sanitizeFieldsC]
  | cons p xs ih =>
    rcases p with ⟨k, x⟩
    rcases hk : isDangerousKey k with _ | _
    · simp [sanitizeFieldsC, hk, List.filter, ih]
    · simp [sanitizeFieldsC, hk, List.filter, ih]

/-- C7: with safeKeys enabled, sanitization removes exactly the own keys
named __proto__, constructor and prototype, case-sensitively, at every
nesting level including inside array elements: the result is danger-free,
the surviving keys of an object are precisely the non-dangerous ones in
their original order, a subtree from which nothing was removed comes back
unchanged (the source then returns the original reference), and the spec's
example drops the top-level __proto__ while keeping name. -/
theorem sanitize_keys_exactness :
    (∀ v : JsVal, dangerFree (sanitizeKeys v true) = true) ∧
    (∀ fields : List (String × JsVal),
      ((sanitizeFieldsC fields true).1.map Prod.fst)
        = ((fields.filter (fun p => !isDangerousKey p.1)).map Prod.fst)) ∧
    (∀ v : JsVal, dangerFree v = true → sanitizeKeys v true = v) ∧
    sanitizeKeys
      (JsVal.obj [("__proto__", JsVal.obj [("polluted", JsVal.bool true)]),
        ("name", JsVal.str "John")]) true
      = JsVal.obj [("name", JsVal.str "John")] := by
  refine ⟨?_, sanitizeFieldsC_keys, ?_, ?_⟩
  · intro v
    exact sanitizeKeysC_dangerFree v
  · intro v h
    rw [sanitizeKeys, dangerFree_sanitize_id v h]
  · simp [sanitizeKeys, sanitizeKeysC, sanitizeFieldsC, sanitizeItemsC, isDangerousKey]

/-- Witness for C7: a danger-free subtree is returned unchanged. -/
theorem sanitize_keys_exactness_witness :
    sanitizeKeys (JsVal.obj [("name", JsVal.str "John")]) true
      = JsVal.obj [("name", JsVal.str "John")] := by
  exact sanitize_keys_exactness.2.2.1
    (JsVal.obj [("name", JsVal.str "John")])
    (by simp [dangerFree, dangerFreeFields, isDangerousKey])

/-- The options record of parse in src/src/parse.ts. The `default` option is
called `dflt` here because `default` is reserved in Lean. The decode
primitive (JSON.parse with the optional date reviver) is an external
collaborator and is passed as a function parameter. -/
structure ParseOptions where
  dflt : Option JsVal
  maxSize : Option Nat
  maxDepth : Option Nat
  safeKeys : Bool
  schema : Option Schema

/-- The try-block of parse from src/src/parse.ts: size gate (only when
maxSize is configured), then decode, then depth gate, then key
sanitization, then schema validation; any failure short-circuits. -/
def parseStages (decode : String → Except String JsVal) (value : String)
    (options : ParseOptions) : Except String JsVal :=
  match (match options.maxSize with
         | some _ => validateInputSize value options.maxSize
         | none => Except.ok ()) with
  | .error e => .error e
  | .ok _ =>
    match decode value with
    | .error e => .error e
    | .ok parsed =>
      match (match options.maxDepth with
             | some m => checkDepth parsed 0 m
             | none => Except.ok ()) with
      | .error e => .error e
      | .ok _ =>
        let sanitized := if options.safeKeys then sanitizeKeys parsed true else parsed
        match options.schema with
        | some s =>
          match validate sanitized s with
          | (true, _) => .ok sanitized
          | (false, err) => .error (err.getD "")
        | none => .ok sanitized

/-- parse from src/src/parse.ts: the catch-block collapses any stage failure
to `options.default ?? null`. -/
def parse (decode : String → Except String JsVal) (value : String)
    (options : ParseOptions) : JsVal :=
  match parseStages decode value options with
  | .ok v => v
  | .error _ => options.dflt.getD JsVal.null

/-- parseWithDetails from src/src/parse.ts: a schema failure is returned
directly with the validator's message; a thrown failure (size, decode,
depth) goes through the catch-block's error formatter, modelled by the
abstract parameter `fmt` because errors.ts (extractPosition, getContext,
formatError) is not part of the snapshot. -/
def parseWithDetails (decode : String → Except String JsVal) (fmt : String → String)
    (value : String) (options : ParseOptions) : Except String JsVal :=
  match (match options.maxSize with
         | some _ => validateInputSize value options.maxSize
         | none => Except.ok ()) with
  | .error e => .error (fmt e)
  | .ok _ =>
    match decode value with
    | .error e => .error (fmt e)
    | .ok parsed =>
      match (match options.maxDepth with
             | some m => checkDepth parsed 0 m
             | none => Except.ok ()) with
      | .error e => .error (fmt e)
      | .ok _ =>
        let sanitized := if options.safeKeys then sanitizeKeys parsed true else parsed
        match options.schema with
        | some s =>
          match validate sanitized s with
          | (true, _) => .ok sanitized
          | (false, err) => .error (err.getD "")
        | none => .ok sanitized

/-- C6: when the configured maxSize is exceeded, parse fails with the
size-limit failure before attempting to decode: the simple entry point
collapses to the configured default (or null), the detailed entry point
reports the size message, and both results are independent of the decode
primitive — so decoding is never attempted, whatever the depth limit. -/
theorem size_gate_runs_first (decode decode2 : String → Except String JsVal)
    (fmt : String → String) (value : String) (options : ParseOptions) (n : Nat)
    (hn : options.maxSize = some n) (hlen : value.length > n) :
    parse decode value options = options.dflt.getD JsVal.null ∧
    parse decode value options = parse decode2 value options ∧
    parseWithDetails decode fmt value options
      = .error (fmt ("Input size " ++ toString value.length ++ " exceeds maximum "
          ++ toString n ++ " bytes")) ∧
    parseWithDetails decode fmt value options = parseWithDetails decode2 fmt value options := by
  refine ⟨?_, ?_, ?_, ?_⟩ <;>
    simp [parse, parseStages, parseWithDetails, hn, validateInputSize, hlen]

/-- Witness for C6: a 12-character input against maxSize 3 and maxDepth 0 —
it exceeds both limits, yet the reported failure is the size one, and the
result is the same whether the decoder would succeed or throw. -/
theorem size_gate_runs_first_witness :
    parse (fun _ => Except.ok JsVal.null) "[[[[[[]]]]]]"
      (ParseOptions.mk none (some 3) (some 0) false none) = JsVal.null ∧
    parseWithDetails (fun _ => Except.ok JsVal.null) (fun s => s) "[[[[[[]]]]]]"
      (ParseOptions.mk none (some 3) (some 0) false none)
      = .error "Input size 12 exceeds maximum 3 bytes" ∧
    parse (fun _ => Except.ok JsVal.null) "[[[[[[]]]]]]"
      (ParseOptions.mk none (some 3) (some 0) false none)
      = parse (fun _ => Except.error "boom") "[[[[[[]]]]]]"
        (ParseOptions.mk none (some 3) (some 0) false none) := by
  have h := size_gate_runs_first (fun _ => Except.ok JsVal.null)
    (fun _ => Except.error "boom") (fun s => s) "[[[[[[]]]]]]"
    (ParseOptions.mk none (some 3) (some 0) false none) 3 rfl (by decide)
  have hs : ((fun s => s)
      ("Input size " ++ toString "[[[[[[]]]]]]".length ++ " exceeds maximum "
        ++ toString 3 ++ " bytes")) = "Input size 12 exceeds maximum 3 bytes" := by decide
  exact ⟨h.1, by rw [h.2.2.1, hs], h.2.1⟩

/-- C10: parse of the exact text `null` succeeds with the value null, so the
configured default is not applied — the default only replaces the result
when a stage throws — and the success value null is indistinguishable from
the null returned for a failing input without a default. -/
theorem parse_null_default_not_applied (decode : String → Except String JsVal) (d : JsVal)
    (hdec : decode "null" = .ok JsVal.null) :
    parse decode "null" (ParseOptions.mk (some d) none none false none) = JsVal.null ∧
    parse decode "null" (ParseOptions.mk none none none false none) = JsVal.null ∧
    (∀ (decode2 : String → Except String JsVal) (s e : String), decode2 s = .error e →
      parse decode2 s (ParseOptions.mk none none none false none) = JsVal.null) := by
  refine ⟨?_, ?_, ?_⟩
  · simp [parse, parseStages, hdec]
  · simp [parse, parseStages, hdec]
  · intro decode2 s e h
    simp [parse, parseStages, h]

/-- Witness for C10: a concrete decoder that reads `null` as null — with a
default configured, parse still returns null, not the default. -/
theorem parse_null_default_not_applied_witness :
    parse (fun s => if s == "null" then Except.ok JsVal.null else Except.error "oops")
      "null" (ParseOptions.mk (some (JsVal.str "fallback")) none none false none)
      = JsVal.null := by
  exact (parse_null_default_not_applied
    (fun s => if s == "null" then Except.ok JsVal.null else Except.error "oops")
    (JsVal.str "fallback") rfl).1

/-- The `dates` option of StringifyOptions and ParseOptions in
src/src/types.ts: absent, a boolean, or one of the two mode strings. -/
inductive DatesOption where
  | unset : DatesOption
  | asBool : Bool → DatesOption
  | iso : DatesOption
  | timestamp : DatesOption

/-- The test `dates !== undefined && dates !== false` from src/src/index.ts. -/
def datesEnabled : DatesOption → Bool
  | .unset => false
  | .asBool b => b
  | _ => true

/-- The computation `dates === true ? "iso" : (dates || "iso")` from
src/src/index.ts, as the effective mode string. -/
def datesMode : DatesOption → String
  | .timestamp => "timestamp"
  | _ => "iso"

mutual

/-- transformDatesForTimestamp from src/src/index.ts, on trees: every Date
is replaced by its epoch-millisecond number before the encoder runs. The
source threads a WeakSet and substitutes the string [Circular] when it meets
a reference already visited; on tree inputs every node is a distinct
reference, so that membership test never fires — reference graphs with
sharing and cycles are treated in the heap embedding further below. -/
def transformDatesForTimestamp : JsVal → JsVal
  | .date m => .num m
  | .arr items => .arr (transformDatesItems items)
  | .obj fields => .obj (transformDatesFields fields)
  | v => v
termination_by v => (sizeOf v, 0)

/-- The `value.map(item => transformDatesForTimestamp(item, seen))` walk. -/
def transformDatesItems : List JsVal → List JsVal
  | [] => []
  | x :: xs => transformDatesForTimestamp x :: transformDatesItems xs
termination_by items => (sizeOf items, 1)

/-- The `for (const key in value)` walk of transformDatesForTimestamp. -/
def transformDatesFields : List (String × JsVal) → List (String × JsVal)
  | [] => []
  | (k, x) :: xs => (k, transformDatesForTimestamp x) :: transformDatesFields xs
termination_by fields => (sizeOf fields, 1)

end

/-- The toJSON step of the encode primitive: JSON.stringify calls
`toJSON()` on Date objects before the replacer runs, producing the ISO
string. The ISO formatter itself is a JavaScript builtin (an external
collaborator) and is a parameter throughout. -/
def applyToJSON (isoFmt : Int → String) : JsVal → JsVal
  | .date m => .str (isoFmt m)
  | v => v

/-- createCircularReplacer from src/src/index.ts as one replacer step: the
custom replacer (which may throw, modelled by Except) runs first, then
BigInt values become their digit string with a trailing n. The WeakSet
membership test is identity-based and never fires on distinct tree nodes;
it is modelled faithfully in the heap embedding below. -/
def replacerStep (rep : String → JsVal → Except String JsVal) (key : String) (v : JsVal) :
    Except String JsVal :=
  match rep key v with
  | .error e => .error e
  | .ok v1 =>
    .ok (match v1 with
         | .bigint n => .str (toString n ++ "n")
         | w => w)

mutual

/-- The encode primitive (JSON.stringify) with a replacer, modelled as
producing the final JSON document tree rather than its text: the external
encoder maps document trees to text and the external decoder inverts it, so
the document tree is exactly what decoding the emitted text yields. At each
property: toJSON, then the replacer; `none` means the property is omitted
(undefined result). A custom replacer may return arbitrary fresh values, so
traversal depth is not bounded by the input; `fuel` models the engine's
call stack, and exhausting it is the RangeError the engine throws on
unbounded recursion (caught, like any exception, at the boundary). -/
def serializeJson (isoFmt : Int → String) (rep : String → JsVal → Except String JsVal)
    (fuel : Nat) (key : String) (v : JsVal) : Except String (Option JsVal) :=
  match replacerStep rep key (applyToJSON isoFmt v) with
  | .error e => .error e
  | .ok v1 =>
    match v1 with
    | .undefined => .ok none
    | .null => .ok (some .null)
    | .bool b => .ok (some (.bool b))
    | .num n => .ok (some (.num n))
    | .str s => .ok (some (.str s))
    | .date _ => .ok (some (.obj []))
    | .bigint _ => .error "Do not know how to serialize a BigInt"
    | .arr items =>
      match fuel with
      | 0 => .error "Maximum call stack size exceeded"
      | fuel1 + 1 =>
        match serializeItems isoFmt rep fuel1 0 items with
        | .error e => .error e
        | .ok ds => .ok (some (.arr ds))
    | .obj fields =>
      match fuel with
      | 0 => .error "Maximum call stack size exceeded"
      | fuel1 + 1 =>
        match serializeFields isoFmt rep fuel1 fields with
        | .error e => .error e
        | .ok dfs => .ok (some (.obj dfs))
termination_by (fuel, 0)

/-- Array elements of the encode primitive: an omitted (undefined) element
encodes as null, per the native encoder contract. -/
def serializeItems (isoFmt : Int → String) (rep : String → JsVal → Except String JsVal)
    (fuel : Nat) (i : Nat) (items : List JsVal) : Except String (List JsVal) :=
  match items with
  | [] => .ok []
  | x :: xs =>
    match serializeJson isoFmt rep fuel (toString i) x with
    | .error e => .error e
    | .ok d =>
      match serializeItems isoFmt rep fuel (i + 1) xs with
      | .error e => .error e
      | .ok ds => .ok (d.getD .null :: ds)
termination_by (fuel, 1 + sizeOf items)

/-- Object fields of the encode primitive: an omitted (undefined) field is
dropped, per the native encoder contract. -/
def serializeFields (isoFmt : Int → String) (rep : String → JsVal → Except String JsVal)
    (fuel : Nat) (fields : List (String × JsVal)) : Except String (List (String × JsVal)) :=
  match fields with
  | [] => .ok []
  | (k, x) :: xs =>
    match serializeJson isoFmt rep fuel k x with
    | .error e => .error e
    | .ok none => serializeFields isoFmt rep fuel xs
    | .ok (some d) =>
      match serializeFields isoFmt rep fuel xs with
      | .error e => .error e
      | .ok ds => .ok ((k, d) :: ds)
termination_by (fuel, 1 + sizeOf fields)

end

/-- The try-block of stringify/tryStringify from src/src/index.ts: under
timestamp mode the whole graph is pre-transformed (Dates become numbers)
before the encoder runs; then JSON.stringify executes with the circular
replacer wrapping the custom one. -/
def runStringify (isoFmt : Int → String) (rep : String → JsVal → Except String JsVal)
    (fuel : Nat) (dates : DatesOption) (v : JsVal) : Except String (Option JsVal) :=
  let valueToStringify :=
    if datesEnabled dates && (datesMode dates == "timestamp") then
      transformDatesForTimestamp v
    else v
  serializeJson isoFmt rep fuel "" valueToStringify

/-- stringify from src/src/index.ts: the catch-block collapses any failure
to null (`none`); a successful run yields the emitted document. -/
def stringify (isoFmt : Int → String) (rep : String → JsVal → Except String JsVal)
    (fuel : Nat) (dates : DatesOption) (v : JsVal) : Option JsVal :=
  match runStringify isoFmt rep fuel dates v with
  | .ok d => d
  | .error _ => none

/-- tryStringify from src/src/index.ts: the error-tuple variant. -/
def tryStringify (isoFmt : Int → String) (rep : String → JsVal → Except String JsVal)
    (fuel : Nat) (dates : DatesOption) (v : JsVal) : Option JsVal × Option String :=
  match runStringify isoFmt rep fuel dates v with
  | .ok d => (d, none)
  | .error e => (none, some e)

/-- C9: every exception raised during serialization traversal — in
particular a custom replacer hook throwing, which surfaces before anything
else even at the root — is caught at the boundary: stringify returns null
and tryStringify returns the (null, error) tuple; neither propagates it. -/
theorem serialization_errors_caught (isoFmt : Int → String)
    (rep : String → JsVal → Except String JsVal) (fuel : Nat) (dates : DatesOption)
    (v : JsVal)
    (e : String) (h : runStringify isoFmt rep fuel dates v = .error e) :
    stringify isoFmt rep fuel dates v = none ∧
    tryStringify isoFmt rep fuel dates v = (none, some e) ∧
    (∀ (msg : String) (w : JsVal) (f : Nat),
      runStringify isoFmt (fun _ _ => Except.error msg) f dates w = .error msg) := by
  refine ⟨?_, ?_, ?_⟩
  · simp [stringify, h]
  · simp [tryStringify, h]
  · intro msg w f
    simp [runStringify, serializeJson, replacerStep]

/-- Witness for C9: a replacer that always throws makes stringify return
null and tryStringify return the error as the second tuple element. -/
theorem serialization_errors_caught_witness :
    stringify (fun _ => "") (fun _ _ => Except.error "boom") 5 DatesOption.unset
      (JsVal.obj [("a", JsVal.num 1)]) = none ∧
    tryStringify (fun _ => "") (fun _ _ => Except.error "boom") 5 DatesOption.unset
      (JsVal.obj [("a", JsVal.num 1)]) = (none, some "boom") := by
  have h := serialization_errors_caught (fun _ => "") (fun _ _ => Except.error "boom")
    5 DatesOption.unset (JsVal.obj [("a", JsVal.num 1)]) "boom"
    (by simp [runStringify, serializeJson, replacerStep])
  exact ⟨h.1, h.2.1⟩

/-- Consume exactly n decimal digits. -/
def takeDigits : Nat → List Char → Option (List Char)
  | 0, cs => some cs
  | _ + 1, [] => none
  | n + 1, c :: cs => if c.isDigit then takeDigits n cs else none

/-- Consume up to n further decimal digits (greedy). -/
def takeDigitsUpTo : Nat → List Char → List Char
  | 0, cs => cs
  | _ + 1, [] => []
  | n + 1, c :: cs => if c.isDigit then takeDigitsUpTo n cs else c :: cs

/-- The optional fractional-seconds group of the ISO regex in
src/src/index.ts: a dot followed by one to three digits. When the group
cannot match, the input is left as is (the regex then fails at the next
stage, exactly as with backtracking). -/
def matchFrac (cs : List Char) : List Char :=
  match cs with
  | '.' :: c :: rest => if c.isDigit then takeDigitsUpTo 2 rest else cs
  | _ => cs

/-- The optional zone group of the ISO regex, which must reach the end of
the input: empty, a final Z, or a sign with hh:mm. -/
def zoneEnd : List Char → Bool
  | [] => true
  | ['Z'] => true
  | c :: rest =>
    if c == '+' || c == '-' then
      match takeDigits 2 rest with
      | some (':' :: r) => takeDigits 2 r == some []
      | _ => false
    else false

/-- The ISO 8601 test of createDateReviver in src/src/index.ts (the regex
with 4-digit year, 2-digit month and day, literal T, hh:mm:ss, optional
fractional seconds up to 3 digits, optional zone or Z, anchored at both
ends). -/
def matchesIsoRegex (s : String) : Bool :=
  match takeDigits 4 s.toList with
  | some ('-' :: cs1) =>
    match takeDigits 2 cs1 with
    | some ('-' :: cs2) =>
      match takeDigits 2 cs2 with
      | some ('T' :: cs3) =>
        match takeDigits 2 cs3 with
        | some (':' :: cs4) =>
          match takeDigits 2 cs4 with
          | some (':' :: cs5) =>
            match takeDigits 2 cs5 with
            | some cs6 => zoneEnd (matchFrac cs6)
            | none => false
          | _ => false
        | _ => false
      | _ => false
    | _ => false
  | _ => false

/-- createDateReviver from src/src/index.ts: when dates are enabled and the
value is a string matching the ISO pattern, `new Date(value)` is attempted
(the builtin parser is the external parameter isoParse; `none` is the NaN
check failing); on success the custom reviver, when present, receives the
already-converted Date. Every other value goes to the custom reviver
unchanged, or through as is. -/
def createDateReviver (isoParse : String → Option Int)
    (customReviver : Option (String → JsVal → JsVal)) (dates : DatesOption)
    (key : String) (v : JsVal) : JsVal :=
  let pass := fun (w : JsVal) =>
    match customReviver with
    | some r => r key w
    | none => w
  if datesEnabled dates then
    match v with
    | .str s =>
      if matchesIsoRegex s then
        match isoParse s with
        | some m => pass (.date m)
        | none => pass v
      else pass v
    | _ => pass v
  else pass v

mutual

/-- The decode primitive's reviver protocol (JSON.parse's internal walk):
the reviver is applied bottom-up, children before their holder, with the
root under the empty key. -/
def reviveWalk (reviver : String → JsVal → JsVal) (key : String) (v : JsVal) : JsVal :=
  match v with
  | .arr items => reviver key (.arr (reviveItems reviver 0 items))
  | .obj fields => reviver key (.obj (reviveFields reviver fields))
  | w => reviver key w
termination_by (sizeOf v, 0)

/-- Bottom-up revival of array elements, keyed by index. -/
def reviveItems (reviver : String → JsVal → JsVal) (i : Nat) (items : List JsVal) :
    List JsVal :=
  match items with
  | [] => []
  | x :: xs => reviveWalk reviver (toString i) x :: reviveItems reviver (i + 1) xs
termination_by (sizeOf items, 1)

/-- Bottom-up revival of object fields, keyed by field name. -/
def reviveFields (reviver : String → JsVal → JsVal)
    (fields : List (String × JsVal)) : List (String × JsVal) :=
  match fields with
  | [] => []
  | (k, x) :: xs => (k, reviveWalk reviver k x) :: reviveFields reviver xs
termination_by (sizeOf fields, 1)

end

mutual

/-- No Date node anywhere in the tree. -/
def dateFree : JsVal → Bool
  | .date _ => false
  | .arr items => dateFreeItems items
  | .obj fields => dateFreeFields fields
  | _ => true
termination_by v => (sizeOf v, 0)

/-- dateFree over array elements. -/
def dateFreeItems : List JsVal → Bool
  | [] => true
  | x :: xs => dateFree x && dateFreeItems xs
termination_by items => (sizeOf items, 1)

/-- dateFree over object fields. -/
def dateFreeFields : List (String × JsVal) → Bool
  | [] => true
  | (_, x) :: xs => dateFree x && dateFreeFields xs
termination_by fields => (sizeOf fields, 1)

end

/-- `date.getTime()`: the epoch-millisecond value of a Date. -/
def getTime : JsVal → Option Int
  | .date m => some m
  | _ => none

mutual

theorem transformDates_dateFree (v : JsVal) :
    dateFree (transformDatesForTimestamp v) = true := by
  cases v with
  | arr items =>
    have h := transformDatesItems_dateFree items
    simp [transformDatesForTimestamp, dateFree, h]
  | obj fields =>
    have h := transformDatesFields_dateFree fields
    simp [transformDatesForTimestamp, dateFree, h]
  | undefined => simp [transformDatesForTimestamp, dateFree]
  | null => simp [transformDatesForTimestamp, dateFree]
  | bool b => simp [transformDatesForTimestamp, dateFree]
  | num n => simp [transformDatesForTimestamp, dateFree]
  | str s => simp [transformDatesForTimestamp, dateFree]
  | date m => simp [transformDatesForTimestamp, dateFree]
  | bigint n => simp [transformDatesForTimestamp, dateFree]
termination_by (sizeOf v, 0)

theorem transformDatesItems_dateFree (items : List JsVal) :
    dateFreeItems (transformDatesItems items) = true := by
  match items with
  | [] => simp [transformDatesItems, dateFreeItems]
  | x :: xs =>
    have h1 := transformDates_dateFree x
    have h2 := transformDatesItems_dateFree xs
    simp [transformDatesItems, dateFreeItems, h1, h2]
termination_by (sizeOf items, 1)

theorem transformDatesFields_dateFree (fields : List (String × JsVal)) :
    dateFreeFields (transformDatesFields fields) = true := by
  match fields with
  | [] => simp [transformDatesFields, dateFreeFields]
  | (k, x) :: xs =>
    have h1 := transformDates_dateFree x
    have h2 := transformDatesFields_dateFree xs
    simp [transformDatesFields, dateFreeFields, h1, h2]
termination_by (sizeOf fields, 1)

end

/-- C8: under timestamp mode the pre-pass replaces every Date in the graph
with its epoch-millisecond number before the encoder runs (the whole
transformed tree is date-free), so the emitted document carries the plain
number `date.getTime()` for field d — which is what decoding the text
yields, the external decoder inverting the external encoder. Under iso mode
the document carries the ISO string, and parse with date-aware revival
recovers a Date with the original millisecond value. -/
theorem date_mode_consistency (m : Int) (isoFmt : Int → String)
    (isoParse : String → Option Int) (fuel : Nat)
    (hregex : matchesIsoRegex (isoFmt m) = true)
    (hparse : isoParse (isoFmt m) = some m) :
    transformDatesForTimestamp (JsVal.obj [("d", JsVal.date m)])
      = JsVal.obj [("d", JsVal.num m)] ∧
    (∀ v : JsVal, dateFree (transformDatesForTimestamp v) = true) ∧
    runStringify isoFmt (fun _ w => Except.ok w) (fuel + 1) DatesOption.timestamp
      (JsVal.obj [("d", JsVal.date m)])
      = .ok (some (JsVal.obj [("d", JsVal.num m)])) ∧
    getTime (JsVal.date m) = some m ∧
    runStringify isoFmt (fun _ w => Except.ok w) (fuel + 1) DatesOption.iso
      (JsVal.obj [("d", JsVal.date m)])
      = .ok (some (JsVal.obj [("d", JsVal.str (isoFmt m))])) ∧
    reviveWalk (createDateReviver isoParse none DatesOption.iso) ""
      (JsVal.obj [("d", JsVal.str (isoFmt m))]) = JsVal.obj [("d", JsVal.date m)] := by
  refine ⟨?_, transformDates_dateFree, ?_, rfl, ?_, ?_⟩
  · simp [transformDatesForTimestamp, transformDatesFields]
  · simp [runStringify, datesEnabled, datesMode, transformDatesForTimestamp,
      transformDatesFields, serializeJson, serializeFields, replacerStep, applyToJSON]
  · simp [runStringify, datesEnabled, datesMode, serializeJson, serializeFields,
      replacerStep, applyToJSON]
  · simp [reviveWalk, reviveFields, createDateReviver, datesEnabled, hregex, hparse]

/-- Witness for C8 at a concrete date (2023-01-01T10:00:00Z, epoch
1672567200000) with a concrete external ISO formatter and parser pair. -/
theorem date_mode_consistency_witness :
    runStringify (fun _ => "2023-01-01T10:00:00.000Z") (fun _ w => Except.ok w) 1
      DatesOption.timestamp (JsVal.obj [("d", JsVal.date 1672567200000)])
      = .ok (some (JsVal.obj [("d", JsVal.num 1672567200000)])) ∧
    reviveWalk
      (createDateReviver
        (fun s => if s == "2023-01-01T10:00:00.000Z" then some 1672567200000 else none)
        none DatesOption.iso) ""
      (JsVal.obj [("d", JsVal.str "2023-01-01T10:00:00.000Z")])
      = JsVal.obj [("d", JsVal.date 1672567200000)] := by
  have h := date_mode_consistency 1672567200000 (fun _ => "2023-01-01T10:00:00.000Z")
    (fun s => if s == "2023-01-01T10:00:00.000Z" then some 1672567200000 else none) 0
    (by decide) rfl
  exact ⟨h.2.2.1, h.2.2.2.2.2⟩

/-
  Heap embedding for cycle detection. createCircularReplacer compares
  references with a WeakSet, so object identity matters: values are
  modelled as primitives or references into a heap of composite nodes, and
  the SeenSet is the list of already-visited addresses of one top-level
  stringify/tryStringify call.
-/

/-- A heap value: a primitive or a reference to a composite node. -/
inductive HVal where
  | null : HVal
  | bool : Bool → HVal
  | num : Int → HVal
  | str : String → HVal
  | bigint : Int → HVal
  | ref : Nat → HVal

/-- A composite node: a plain object or an array. -/
inductive HNode where
  | obj : List (String × HVal) → HNode
  | arr : List HVal → HNode

/-- A heap: addresses mapped to composite nodes. -/
abbrev Heap := List (Nat × HNode)

/-- Dereference an address. -/
def lookupNode (h : Heap) (a : Nat) : Option HNode :=
  (h.find? (fun p => p.1 == a)).map Prod.snd

/-- One character of JSON string quoting. -/
def escapeChar (c : Char) : String :=
  if c == '\\' then "\\\\" else if c == '\"' then "\\\"" else String.singleton c

/-- JSON string quoting, as the encode primitive emits it. -/
def jsonQuote (s : String) : String :=
  "\"" ++ String.join (s.toList.map escapeChar) ++ "\""

/-- Comma-join encoded parts. -/
def joinComma : List String → String
  | [] => ""
  | [s] => s
  | s :: rest => s ++ "," ++ joinComma rest

mutual

/-- The encode primitive running createCircularReplacer from
src/src/index.ts (no custom replacer, as stringify(value) uses it): before a
composite is descended into, its address is looked up in the seen set — if
present, the literal string [Circular] is emitted in its place and the node
is not entered; otherwise the address is added to the set, which persists
for the rest of the whole call (the WeakSet is never pruned), so a later
sibling occurrence is substituted as well. `fuel` only bounds the recursion
for Lean; the sufficiency theorem below shows the bound used by the entry
points is never hit. -/
def serializeHVal (h : Heap) (fuel : Nat) (seen : List Nat) (v : HVal) :
    Option (String × List Nat) :=
  match v with
  | .null => some ("null", seen)
  | .bool b => some (if b then "true" else "false", seen)
  | .num n => some (toString n, seen)
  | .str s => some (jsonQuote s, seen)
  | .bigint n => some (jsonQuote (toString n ++ "n"), seen)
  | .ref a =>
    if a ∈ seen then some (jsonQuote "[Circular]", seen)
    else if hfuel : fuel = 0 then none
    else
      match lookupNode h a with
      | none => some ("null", seen)
      | some (.obj fields) =>
        match serializeHFields h (fuel - 1) (a :: seen) fields with
        | none => none
        | some (parts, seen1) => some ("\x7b" ++ joinComma parts ++ "\x7d", seen1)
      | some (.arr items) =>
        match serializeHItems h (fuel - 1) (a :: seen) items with
        | none => none
        | some (parts, seen1) => some ("[" ++ joinComma parts ++ "]", seen1)
termination_by (fuel, 0)
decreasing_by all_goals (simp_wf; omega)

/-- Object fields of the heap encoder; the seen set threads left to right
through the siblings. -/
def serializeHFields (h : Heap) (fuel : Nat) (seen : List Nat)
    (fields : List (String × HVal)) : Option (List String × List Nat) :=
  match fields with
  | [] => some ([], seen)
  | (k, v) :: rest =>
    match serializeHVal h fuel seen v with
    | none => none
    | some (sv, seen1) =>
      match serializeHFields h fuel seen1 rest with
      | none => none
      | some (parts, seen2) => some ((jsonQuote k ++ ":" ++ sv) :: parts, seen2)
termination_by (fuel, 1 + sizeOf fields)
decreasing_by all_goals (simp_wf; omega)

/-- Array elements of the heap encoder; the seen set threads left to right. -/
def serializeHItems (h : Heap) (fuel : Nat) (seen : List Nat) (items : List HVal) :
    Option (List String × List Nat) :=
  match items with
  | [] => some ([], seen)
  | v :: rest =>
    match serializeHVal h fuel seen v with
    | none => none
    | some (sv, seen1) =>
      match serializeHItems h fuel seen1 rest with
      | none => none
      | some (parts, seen2) => some (sv :: parts, seen2)
termination_by (fuel, 1 + sizeOf items)
decreasing_by all_goals (simp_wf; omega)

end

/-- The heap's address list. -/
def heapAddrs (h : Heap) : List Nat := h.map Prod.fst

/-- The number of heap addresses not yet in the seen set. -/
def unseenCount (h : Heap) (seen : List Nat) : Nat :=
  ((heapAddrs h).filter (fun a => decide (a ∉ seen))).length

/-- stringify from src/src/index.ts on the heap embedding: a fresh seen set
per call, and enough fuel for every address (proven sufficient below). -/
def stringifyHeap (h : Heap) (v : HVal) : Option String :=
  match serializeHVal h (unseenCount h [] + 1) [] v with
  | some (s, _) => some s
  | none => none

/-- tryStringify from src/src/index.ts on the heap embedding. -/
def tryStringifyHeap (h : Heap) (v : HVal) : Option String × Option String :=
  match serializeHVal h (unseenCount h [] + 1) [] v with
  | some (s, _) => (some s, none)
  | none => (none, none)

theorem filter_length_le_of_imp {α : Type} (l : List α) (p q : α → Bool)
    (himp : ∀ x, p x = true → q x = true) :
    (l.filter p).length ≤ (l.filter q).length := by
  induction l with
  | nil => simp
  | cons x xs ih =>
    rcases hp : p x with _ | _
    · rcases hq : q x with _ | _ <;> simp [List.filter, hp, hq] <;> omega
    · have hq := himp x hp
      simp [List.filter, hp, hq]
      omega

theorem filter_length_lt_of_imp {α : Type} (l : List α) (p q : α → Bool)
    (himp : ∀ x, p x = true → q x = true) (a : α) (ha : a ∈ l)
    (hq : q a = true) (hp : p a = false) :
    (l.filter p).length < (l.filter q).length := by
  induction l with
  | nil => cases ha
  | cons x xs ih =>
    rcases List.mem_cons.mp ha with rfl | hmem
    · have hle := filter_length_le_of_imp xs p q himp
      simp [List.filter, hp, hq]
      omega
    · rcases hpx : p x with _ | _
      · rcases hqx : q x with _ | _ <;> simp [List.filter, hpx, hqx] <;>
          have := ih hmem <;> omega
      · have hqx := himp x hpx
        have := ih hmem
        simp [List.filter, hpx, hqx]
        omega

theorem lookupNode_mem (h : Heap) (a : Nat) (node : HNode)
    (hl : lookupNode h a = some node) : a ∈ heapAddrs h := by
  rw [lookupNode] at hl
  rcases hf : h.find? (fun p => p.1 == a) with _ | pr
  · rw [hf] at hl
    simp at hl
  · have hm := List.mem_of_find?_eq_some hf
    have hp := List.find?_some hf
    simp at hp
    rw [heapAddrs]
    exact List.mem_map.mpr ⟨pr, hm, hp⟩

theorem unseen_le_of_subset (h : Heap) (s1 s2 : List Nat)
    (hsub : ∀ x ∈ s1, x ∈ s2) : unseenCount h s2 ≤ unseenCount h s1 := by
  apply filter_length_le_of_imp
  intro x hx
  simp only [decide_eq_true_eq] at hx ⊢
  intro hmem
  exact hx (hsub x hmem)

theorem unseen_cons_lt (h : Heap) (seen : List Nat) (a : Nat)
    (hmem : a ∈ heapAddrs h) (hnot : a ∉ seen) :
    unseenCount h (a :: seen) < unseenCount h seen := by
  apply filter_length_lt_of_imp (heapAddrs h) _ _ ?_ a hmem ?_ ?_
  · intro x hx
    simp only [decide_eq_true_eq, List.mem_cons] at hx ⊢
    intro hm
    exact hx (Or.inr hm)
  · simp [hnot]
  · simp

mutual

theorem serializeHVal_mono (h : Heap) (fuel : Nat) (seen : List Nat) (v : HVal)
    (s : String) (seen' : List Nat)
    (heq : serializeHVal h fuel seen v = some (s, seen')) :
    ∀ x ∈ seen, x ∈ seen' := by
  intro x hx
  cases v with
  | null => simp [serializeHVal] at heq; rw [← heq.2]; exact hx
  | bool b => simp [serializeHVal] at heq; rw [← heq.2]; exact hx
  | num n => simp [serializeHVal] at heq; rw [← heq.2]; exact hx
  | str s2 => simp [serializeHVal] at heq; rw [← heq.2]; exact hx
  | bigint n => simp [serializeHVal] at heq; rw [← heq.2]; exact hx
  | ref a =>
    rw [serializeHVal] at heq
    by_cases hmem : a ∈ seen
    · simp [hmem] at heq
      rw [← heq.2]
      exact hx
    · by_cases hfuel : fuel = 0
      · simp [hmem, hfuel] at heq
      · rw [if_neg hmem, dif_neg hfuel] at heq
        split at heq
        · simp at heq
          rw [← heq.2]
          exact hx
        · rename_i fields hl
          split at heq
          · simp at heq
          · rename_i parts seen1 hsf
            simp at heq
            have h1 := serializeHFields_mono h (fuel - 1) (a :: seen) fields parts seen1
              hsf x (List.mem_cons_of_mem a hx)
            rw [← heq.2]
            exact h1
        · rename_i items hl
          split at heq
          · simp at heq
          · rename_i parts seen1 hsf
            simp at heq
            have h1 := serializeHItems_mono h (fuel - 1) (a :: seen) items parts seen1
              hsf x (List.mem_cons_of_mem a hx)
            rw [← heq.2]
            exact h1
termination_by (fuel, 0)
decreasing_by all_goals (simp_wf; omega)

theorem serializeHFields_mono (h : Heap) (fuel : Nat) (seen : List Nat)
    (fields : List (String × HVal)) (parts : List String) (seen' : List Nat)
    (heq : serializeHFields h fuel seen fields = some (parts, seen')) :
    ∀ x ∈ seen, x ∈ seen' := by
  induction fields generalizing seen parts seen' with
  | nil =>
    intro x hx
    simp [serializeHFields] at heq
    rw [← heq.2]
    exact hx
  | cons p rest ih =>
    intro x hx
    rcases p with ⟨k, v⟩
    rw [serializeHFields] at heq
    split at heq
    · simp at heq
    · rename_i sv seen1 hv
      split at heq
      · simp at heq
      · rename_i parts2 seen2 hr
        simp at heq
        have h1 := serializeHVal_mono h fuel seen v sv seen1 hv x hx
        have h2 := ih seen1 parts2 seen2 hr x h1
        rw [← heq.2]
        exact h2
termination_by (fuel, 1)
decreasing_by all_goals (simp_wf; omega)

theorem serializeHItems_mono (h : Heap) (fuel : Nat) (seen : List Nat)
    (items : List HVal) (parts : List String) (seen' : List Nat)
    (heq : serializeHItems h fuel seen items = some (parts, seen')) :
    ∀ x ∈ seen, x ∈ seen' := by
  induction items generalizing seen parts seen' with
  | nil =>
    intro x hx
    simp [serializeHItems] at heq
    rw [← heq.2]
    exact hx
  | cons v rest ih =>
    intro x hx
    rw [serializeHItems] at heq
    split at heq
    · simp at heq
    · rename_i sv seen1 hv
      split at heq
      · simp at heq
      · rename_i parts2 seen2 hr
        simp at heq
        have h1 := serializeHVal_mono h fuel seen v sv seen1 hv x hx
        have h2 := ih seen1 parts2 seen2 hr x h1
        rw [← heq.2]
        exact h2
termination_by (fuel, 1)
decreasing_by all_goals (simp_wf; omega)

end

mutual

theorem serializeHVal_total (h : Heap) (fuel : Nat) (seen : List Nat) (v : HVal)
    (hf : unseenCount h seen < fuel) : (serializeHVal h fuel seen v).isSome := by
  cases v with
  | null => simp [serializeHVal]
  | bool b => simp [serializeHVal]
  | num n => simp [serializeHVal]
  | str s => simp [serializeHVal]
  | bigint n => simp [serializeHVal]
  | ref a =>
    rw [serializeHVal]
    by_cases hmem : a ∈ seen
    · simp [hmem]
    · have hfuel : ¬fuel = 0 := by omega
      rw [if_neg hmem, dif_neg hfuel]
      rcases hl : lookupNode h a with _ | node
      · simp
      · cases node with
        | obj fields =>
          have ha := lookupNode_mem h a _ hl
          have hlt := unseen_cons_lt h seen a ha hmem
          have hf1 : unseenCount h (a :: seen) < fuel - 1 := by omega
          have ht := serializeHFields_total h (fuel - 1) (a :: seen) fields hf1
          rcases hs : serializeHFields h (fuel - 1) (a :: seen) fields
            with _ | ⟨parts, seen1⟩
          · rw [hs] at ht
            simp at ht
          · simp [hs]
        | arr items =>
          have ha := lookupNode_mem h a _ hl
          have hlt := unseen_cons_lt h seen a ha hmem
          have hf1 : unseenCount h (a :: seen) < fuel - 1 := by omega
          have ht := serializeHItems_total h (fuel - 1) (a :: seen) items hf1
          rcases hs : serializeHItems h (fuel - 1) (a :: seen) items
            with _ | ⟨parts, seen1⟩
          · rw [hs] at ht
            simp at ht
          · simp [hs]
termination_by (fuel, 0)
decreasing_by all_goals (simp_wf; omega)

theorem serializeHFields_total (h : Heap) (fuel : Nat) (seen : List Nat)
    (fields : List (String × HVal)) (hf : unseenCount h seen < fuel) :
    (serializeHFields h fuel seen fields).isSome := by
  induction fields generalizing seen with
  | nil => simp [serializeHFields]
  | cons p rest ih =>
    rcases p with ⟨k, v⟩
    rw [serializeHFields]
    have hv := serializeHVal_total h fuel seen v hf
    rcases hs : serializeHVal h fuel seen v with _ | ⟨sv, seen1⟩
    · rw [hs] at hv
      simp at hv
    · have hmono := serializeHVal_mono h fuel seen v sv seen1 hs
      have hle := unseen_le_of_subset h seen seen1 hmono
      have hf1 : unseenCount h seen1 < fuel := by omega
      have hr := ih seen1 hf1
      rcases hrs : serializeHFields h fuel seen1 rest with _ | ⟨parts, seen2⟩
      · rw [hrs] at hr
        simp at hr
      · simp [hs, hrs]
termination_by (fuel, 1)
decreasing_by all_goals (simp_wf; omega)

theorem serializeHItems_total (h : Heap) (fuel : Nat) (seen : List Nat)
    (items : List HVal) (hf : unseenCount h seen < fuel) :
    (serializeHItems h fuel seen items).isSome := by
  induction items generalizing seen with
  | nil => simp [serializeHItems]
  | cons v rest ih =>
    rw [serializeHItems]
    have hv := serializeHVal_total h fuel seen v hf
    rcases hs : serializeHVal h fuel seen v with _ | ⟨sv, seen1⟩
    · rw [hs] at hv
      simp at hv
    · have hmono := serializeHVal_mono h fuel seen v sv seen1 hs
      have hle := unseen_le_of_subset h seen seen1 hmono
      have hf1 : unseenCount h seen1 < fuel := by omega
      have hr := ih seen1 hf1
      rcases hrs : serializeHItems h fuel seen1 rest with _ | ⟨parts, seen2⟩
      · rw [hrs] at hr
        simp at hr
      · simp [hs, hrs]
termination_by (fuel, 1)
decreasing_by all_goals (simp_wf; omega)

end

/-- Whether `pat` is an initial segment of the character list. -/
def leadsWith : List Char → List Char → Bool
  | [], _ => true
  | _ :: _, [] => false
  | p :: ps, c :: cs => p == c && leadsWith ps cs

/-- The number of positions at which `pat` occurs in the character list. -/
def countOccs (pat : List Char) : List Char → Nat
  | [] => 0
  | c :: rest => (if leadsWith pat (c :: rest) then 1 else 0) + countOccs pat rest

/-- C5: serialization of reference graphs always terminates — with a fresh
seen set, the fuel used by the entry points (one past the number of heap
addresses) is never exhausted, for cyclic graphs included — and any
composite whose address is already in the per-call seen set, ancestor or
non-ancestor sibling alike, is replaced by the literal string [Circular]
instead of being descended into. For the single self-reference
`obj = (a: 1, self: obj)`, both stringify and tryStringify produce exactly
the text with [Circular] at the cyclic position, occurring exactly once. -/
theorem circular_reference_safety :
    (∀ (h : Heap) (v : HVal), ∃ s : String,
      stringifyHeap h v = some s ∧ tryStringifyHeap h v = (some s, none)) ∧
    (∀ (h : Heap) (fuel : Nat) (seen : List Nat) (a : Nat), a ∈ seen →
      serializeHVal h fuel seen (HVal.ref a) = some (jsonQuote "[Circular]", seen)) ∧
    stringifyHeap [(0, HNode.obj [("a", HVal.num 1), ("self", HVal.ref 0)])] (HVal.ref 0)
      = some "\x7b\"a\":1,\"self\":\"[Circular]\"\x7d" ∧
    tryStringifyHeap [(0, HNode.obj [("a", HVal.num 1), ("self", HVal.ref 0)])] (HVal.ref 0)
      = (some "\x7b\"a\":1,\"self\":\"[Circular]\"\x7d", none) ∧
    countOccs ("[Circular]".toList) ("\x7b\"a\":1,\"self\":\"[Circular]\"\x7d".toList)
      = 1 := by
  have hconc :
      serializeHVal [(0, HNode.obj [("a", HVal.num 1), ("self", HVal.ref 0)])]
        (unseenCount [(0, HNode.obj [("a", HVal.num 1), ("self", HVal.ref 0)])] [] + 1)
        [] (HVal.ref 0)
      = some ("\x7b\"a\":1,\"self\":\"[Circular]\"\x7d", [0]) := by
    have hc : unseenCount [(0, HNode.obj [("a", HVal.num 1), ("self", HVal.ref 0)])] []
        = 1 := by decide
    rw [hc]
    simp [serializeHVal, serializeHFields, lookupNode, jsonQuote, joinComma, escapeChar,
      String.join]
    decide
  refine ⟨?_, ?_, ?_, ?_, by decide⟩
  · intro h v
    have ht := serializeHVal_total h (unseenCount h [] + 1) [] v (by omega)
    rcases hs : serializeHVal h (unseenCount h [] + 1) [] v with _ | ⟨s, seen1⟩
    · rw [hs] at ht
      simp at ht
    · exact ⟨s, by simp [stringifyHeap, hs], by simp [tryStringifyHeap, hs]⟩
  · intro h fuel seen a ha
    rw [serializeHVal]
    simp [ha]
  · rw [stringifyHeap, hconc]
  · rw [tryStringifyHeap, hconc]

/-- Witness for C5: a reference whose address is already in the seen set —
as at a non-ancestor sibling position — is substituted by [Circular]. -/
theorem circular_reference_safety_witness :
    serializeHVal [] 5 [3] (HVal.ref 3) = some (jsonQuote "[Circular]", [3]) := by
  exact circular_reference_safety.2.1 [] 5 [3] 3 (by decide)
